import Mathlib

/-!
# Greenville Cash — verification of the encrypted local-storage persistence scheme

Shallow embedding of the Greenville Cash client (src/encryption.js, src/storage.js,
src/auth.js, and the shared helpers of the main script) and proofs of the
specification's testable properties.

Modelling conventions:
* JavaScript values that flow through `encryptData`/`decryptData` are modelled by
  the inductive `Json` below; JSON numbers are modelled as integers (the records
  this app encrypts contain strings, booleans, arrays and objects only).
* `JSON.stringify` / `JSON.parse` are platform builtins; they are embedded as the
  executable `jsonStringify` / `jsonParse` below, with a fuel-based
  recursive-descent grammar reading exactly the JSON fragment the printer emits.
* `CryptoJS.PBKDF2` and `CryptoJS.AES` (CBC/PKCS7) are a third-party library; they
  are embedded as an ideal symbolic cipher: the ciphertext is an injective
  base64-alphabet encoding of the derived key together with the plaintext, and
  decryption with a non-matching key yields nothing — the "empty result" failure
  mode the source tests for (`if (!decryptedStr) throw ...`).  The random IV is an
  explicit argument; the CBC IV does not influence whether decryption under the
  correct key recovers the plaintext, so the symbolic cipher does not consume it.
* `localStorage`, `sessionStorage` and the cookie jar are modelled as
  `String → Option String` maps inside `BrowserState`; JavaScript truthiness of
  `getItem` results (null or empty string are falsy) is modelled by `truthyOpt`.
-/

namespace Greenville

/-- JSON-like value universe for the data handled by the app
    (`JSON.stringify`-serializable JavaScript values; numbers as integers). -/
inductive Json where
  | null : Json
  | bool (b : Bool) : Json
  | num (n : Int) : Json
  | str (s : String) : Json
  | arr (elems : List Json) : Json
  | obj (fields : List (String × Json)) : Json

/-! ## Digit and character tables (all structural, kernel-evaluable) -/

/-- Decimal digit characters. -/
def decDigitChars : List Char := ['0', '1', '2', '3', '4', '5', '6', '7', '8', '9']

/-- The decimal digit character for value `n` (out-of-range defaults inside the table). -/
def digitChar10 (n : Nat) : Char := decDigitChars.getD n '9'

/-- Lowercase hexadecimal digit characters, as produced by CryptoJS's hex encoder. -/
def hexDigitChars : List Char :=
  decDigitChars ++ ['a', 'b', 'c', 'd', 'e', 'f']

/-- The hex digit character for value `n` (out-of-range defaults inside the table). -/
def hexDigitChar (n : Nat) : Char := hexDigitChars.getD n 'f'

/-- The base64 alphabet used by CryptoJS's ciphertext `toString()`. -/
def base64Alphabet : List Char :=
  "ABCDEFGHIJKLMNOPQRSTUVWXYZabcdefghijklmnopqrstuvwxyz0123456789+/".toList

/-- The base64 character with index `n` (out-of-range defaults inside the table). -/
def b64Char (n : Nat) : Char := base64Alphabet.getD n 'A'

/-- Index lookup helper for `b64Index`. -/
def b64IndexAux : List Char → Nat → Char → Option Nat
  | [], _, _ => none
  | a :: rest, i, c => if a = c then some i else b64IndexAux rest (i + 1) c

/-- Index of a character in the base64 alphabet. -/
def b64Index (c : Char) : Option Nat := b64IndexAux base64Alphabet 0 c

/-- The character with the given code point, if the code point is valid. -/
def charFromCode (n : Nat) : Option Char :=
  let c := Char.ofNat n
  if c.toNat = n then some c else none

/-- Value of a hexadecimal digit character (both cases), as read by `JSON.parse`
    unicode escapes and by CryptoJS's hex decoder. -/
def hexVal (c : Char) : Option Nat :=
  if '0' ≤ c ∧ c ≤ '9' then some (c.toNat - 48)
  else if 'a' ≤ c ∧ c ≤ 'f' then some (c.toNat - 87)
  else if 'A' ≤ c ∧ c ≤ 'F' then some (c.toNat - 55)
  else none

/-- Value of a decimal digit character. -/
def digitVal (c : Char) : Option Nat :=
  if '0' ≤ c ∧ c ≤ '9' then some (c.toNat - 48) else none

/-! ## Positional digits with explicit fuel (kernel-reducible replacement for the
library's well-founded digit function) -/

/-- Little-endian base-`b` digits of the second argument, with fuel. -/
def digitsFuel (b : Nat) : Nat → Nat → List Nat
  | 0, _ => []
  | _ + 1, 0 => []
  | fuel + 1, n + 1 => (n + 1) % b :: digitsFuel b fuel ((n + 1) / b)

/-- Little-endian base-`b` digits of `n`. -/
def digitsB (b n : Nat) : List Nat := digitsFuel b n n

/-- Value of a little-endian digit list in base `b`. -/
def ofDigitsB (b : Nat) (l : List Nat) : Nat := l.foldr (fun d acc => d + b * acc) 0

/-- Decimal character rendering of a natural number (`String(n)` for naturals). -/
def natChars (n : Nat) : List Char :=
  if n = 0 then ['0'] else (digitsB 10 n).reverse.map digitChar10

/-- Decimal character rendering of an integer (`String(n)` / `JSON.stringify(n)`). -/
def intChars (n : Int) : List Char :=
  if n < 0 then '-' :: natChars n.natAbs else natChars n.toNat

/-! ## The JSON printer (embedding of `JSON.stringify`) -/

/-- Escape one character for a JSON string literal, as `JSON.stringify` does:
    quote and backslash get a backslash, the named control characters get their
    short escapes, remaining control characters get a `\u00XX` escape. -/
def escapeChar (c : Char) : List Char :=
  if c = '"' then ['\\', '"']
  else if c = '\\' then ['\\', '\\']
  else if c = '\x08' then ['\\', 'b']
  else if c = '\t' then ['\\', 't']
  else if c = '\n' then ['\\', 'n']
  else if c = '\x0c' then ['\\', 'f']
  else if c = '\r' then ['\\', 'r']
  else if c.toNat < 32 then
    ['\\', 'u', '0', '0', hexDigitChar (c.toNat / 16), hexDigitChar (c.toNat % 16)]
  else [c]

/-- A quoted JSON string literal for `s`. -/
def quoteChars (s : String) : List Char :=
  '"' :: (s.toList.flatMap escapeChar ++ ['"'])

mutual

/-- Characters of the canonical JSON text of a value (`JSON.stringify`, which
    emits no whitespace and keeps object fields in insertion order). -/
def Json.toChars : Json → List Char
  | .null => 'n' :: ['u', 'l', 'l']
  | .bool true => 't' :: ['r', 'u', 'e']
  | .bool false => 'f' :: ['a', 'l', 's', 'e']
  | .num n => intChars n
  | .str s => quoteChars s
  | .arr es => '[' :: (arrChars es ++ [']'])
  | .obj fs => '{' :: (objChars fs ++ ['}'])

/-- Comma-separated renderings of array elements. -/
def arrChars : List Json → List Char
  | [] => []
  | [e] => e.toChars
  | e :: es => e.toChars ++ ',' :: arrChars es

/-- Comma-separated renderings of object fields. -/
def objChars : List (String × Json) → List Char
  | [] => []
  | [(k, v)] => quoteChars k ++ ':' :: v.toChars
  | (k, v) :: fs => quoteChars k ++ ':' :: v.toChars ++ ',' :: objChars fs

end

/-- Embedding of `JSON.stringify`. -/
def jsonStringify (v : Json) : String := String.mk v.toChars

/-! ## The JSON parser (embedding of `JSON.parse`)

A fuel-based recursive-descent parser for the JSON grammar.  `JSON.parse` either
returns a value or throws; the embedding returns an `Option`. -/

/-- JSON insignificant whitespace. -/
def isJsonWs (c : Char) : Bool := c == ' ' || c == '\t' || c == '\n' || c == '\r'

/-- Drop leading JSON whitespace. -/
def skipWs : List Char → List Char
  | [] => []
  | c :: rest => if isJsonWs c then skipWs rest else c :: rest

/-- The character denoted by a single-character JSON escape. -/
def unescape (e : Char) : Option Char :=
  if e = '"' then some '"'
  else if e = '\\' then some '\\'
  else if e = '/' then some '/'
  else if e = 'b' then some '\x08'
  else if e = 'f' then some '\x0c'
  else if e = 'n' then some '\n'
  else if e = 'r' then some '\r'
  else if e = 't' then some '\t'
  else none

/-- Parse the body of a JSON string literal (after the opening quote), returning
    the decoded characters and the input after the closing quote. -/
def parseStringBody : List Char → Option (List Char × List Char)
  | [] => none
  | c :: rest =>
    if c = '"' then some ([], rest)
    else if c = '\\' then
      match rest with
      | [] => none
      | e :: rest2 =>
        if e = 'u' then
          match rest2 with
          | h1 :: h2 :: h3 :: h4 :: rest3 =>
            match hexVal h1, hexVal h2, hexVal h3, hexVal h4 with
            | some d1, some d2, some d3, some d4 =>
              match charFromCode (((d1 * 16 + d2) * 16 + d3) * 16 + d4) with
              | some ch =>
                match parseStringBody rest3 with
                | some (cs, r) => some (ch :: cs, r)
                | none => none
              | none => none
            | _, _, _, _ => none
          | _ => none
        else
          match unescape e with
          | some ch =>
            match parseStringBody rest2 with
            | some (cs, r) => some (ch :: cs, r)
            | none => none
          | none => none
    else
      match parseStringBody rest with
      | some (cs, r) => some (c :: cs, r)
      | none => none

/-- Longest prefix of decimal digits, as digit values, plus the remaining input. -/
def takeDigits : List Char → (List Nat × List Char)
  | [] => ([], [])
  | c :: rest =>
    match digitVal c with
    | some d => (d :: (takeDigits rest).1, (takeDigits rest).2)
    | none => ([], c :: rest)

/-- Numeric value of a most-significant-first digit list. -/
def digitsVal (ds : List Nat) : Nat := ds.foldl (fun acc d => 10 * acc + d) 0

mutual

/-- Parse one JSON value; returns the value and the rest of the input. -/
def parseVal : Nat → List Char → Option (Json × List Char)
  | 0, _ => none
  | fuel + 1, input =>
    match skipWs input with
    | [] => none
    | c :: rest =>
      if c = 'n' then
        match rest with
        | 'u' :: 'l' :: 'l' :: r => some (.null, r)
        | _ => none
      else if c = 't' then
        match rest with
        | 'r' :: 'u' :: 'e' :: r => some (.bool true, r)
        | _ => none
      else if c = 'f' then
        match rest with
        | 'a' :: 'l' :: 's' :: 'e' :: r => some (.bool false, r)
        | _ => none
      else if c = '"' then
        match parseStringBody rest with
        | some (cs, r) => some (.str (String.mk cs), r)
        | none => none
      else if c = '[' then
        match skipWs rest with
        | [] => none
        | d :: r =>
          if d = ']' then some (.arr [], r)
          else
            match parseElems fuel (d :: r) with
            | some (vs, r2) => some (.arr vs, r2)
            | none => none
      else if c = '{' then
        match skipWs rest with
        | [] => none
        | d :: r =>
          if d = '}' then some (.obj [], r)
          else
            match parseFields fuel (d :: r) with
            | some (fs, r2) => some (.obj fs, r2)
            | none => none
      else if c = '-' then
        match takeDigits rest with
        | ([], _) => none
        | (ds, r) => some (.num (-(digitsVal ds : Int)), r)
      else
        match digitVal c with
        | some _ =>
          match takeDigits (c :: rest) with
          | (ds, r) => some (.num (digitsVal ds : Int), r)
        | none => none

/-- Parse one or more comma-separated array elements up to the closing bracket. -/
def parseElems : Nat → List Char → Option (List Json × List Char)
  | 0, _ => none
  | fuel + 1, input =>
    match parseVal fuel input with
    | none => none
    | some (v, rest) =>
      match skipWs rest with
      | ',' :: r =>
        match parseElems fuel r with
        | some (vs, r2) => some (v :: vs, r2)
        | none => none
      | ']' :: r => some ([v], r)
      | _ => none

/-- Parse one or more comma-separated object fields up to the closing brace. -/
def parseFields : Nat → List Char → Option (List (String × Json) × List Char)
  | 0, _ => none
  | fuel + 1, input =>
    match skipWs input with
    | '"' :: rest =>
      match parseStringBody rest with
      | some (kcs, r1) =>
        match skipWs r1 with
        | ':' :: r2 =>
          match parseVal fuel r2 with
          | some (v, r3) =>
            match skipWs r3 with
            | ',' :: r4 =>
              match parseFields fuel r4 with
              | some (fs, r5) => some ((String.mk kcs, v) :: fs, r5)
              | none => none
            | '}' :: r4 => some ([(String.mk kcs, v)], r4)
            | _ => none
          | none => none
        | _ => none
      | none => none
    | _ => none

end

/-- Embedding of `JSON.parse`: parse a complete JSON text (surrounding whitespace
    allowed, trailing garbage rejected). -/
def jsonParse (s : String) : Option Json :=
  match parseVal (s.length + 1) s.toList with
  | some (v, rest) => if skipWs rest = [] then some v else none
  | none => none

/-! ## Key derivation and the symbolic AES-CBC cipher (src/encryption.js)

`deriveKeyFromPassword` calls `CryptoJS.PBKDF2(password, salt, ...)` with the
hard-coded default salt and returns the key's string form; the embedding keeps
its shape as a deterministic, collision-free function of (salt, password).

`CryptoJS.AES.encrypt(dataStr, key, {iv, Pkcs7, CBC}).toString()` returns a
base64 ciphertext string; decryption with the same key recovers `dataStr`, and
decryption with any other key yields an empty/garbage result that fails the
source's `if (!decryptedStr)` check.  The embedding realises this contract with
an injective encoding of (key, plaintext) into the base64 alphabet: every
character is rendered as its base-62 digits (values 0–61) followed by the
terminator value 62, and the value 63 separates the key part from the plaintext
part.  Decryption decodes and compares the embedded key with the supplied one. -/

/-- Symbolic cipher rendering of one character: base-62 digits then terminator 62. -/
def encCharSym (c : Char) : List Nat := digitsB 62 c.toNat ++ [62]

/-- Symbolic cipher rendering of a string: concatenation of its characters' codes. -/
def encStrSym (s : String) : List Nat := s.toList.flatMap encCharSym

/-- Symbolic ciphertext code sequence for (key, plaintext), separated by value 63. -/
def cipherCodes (key plain : String) : List Nat := encStrSym key ++ 63 :: encStrSym plain

/-- Symbolic ciphertext characters (`encrypted.toString()`, base64 alphabet only). -/
def cipherChars (plain key : String) : List Char := (cipherCodes key plain).map b64Char

/-- Split a code list at the first occurrence of the separator value 63. -/
def splitAtSep : List Nat → Option (List Nat × List Nat)
  | [] => none
  | n :: rest =>
    if n = 63 then some ([], rest)
    else
      match splitAtSep rest with
      | some (a, b) => some (n :: a, b)
      | none => none

/-- Decode a code list back into characters: digits below 62 accumulate, the
    terminator 62 closes one character, anything else is malformed. -/
def decCharsSym : List Nat → List Nat → Option (List Char)
  | [], acc => if acc.isEmpty then some [] else none
  | d :: rest, acc =>
    if d = 62 then
      match charFromCode (ofDigitsB 62 acc.reverse) with
      | some c =>
        match decCharsSym rest [] with
        | some cs => some (c :: cs)
        | none => none
      | none => none
    else if d < 62 then decCharsSym rest (d :: acc)
    else none

/-- Decode a full code list into a string. -/
def decStrSym (l : List Nat) : Option String := (decCharsSym l []).map String.mk

/-- Map ciphertext characters back to their base64 indices. -/
def codesOf : List Char → Option (List Nat)
  | [] => some []
  | c :: rest =>
    match b64Index c, codesOf rest with
    | some n, some ns => some (n :: ns)
    | _, _ => none

/-- Symbolic AES-CBC decryption: recover the plaintext from ciphertext characters
    when the supplied key matches the one the ciphertext was produced under;
    any mismatch or malformed ciphertext yields `none` (the empty/garbage result
    of decrypting with a wrong key). -/
def aesDecryptSym (ct : List Char) (key : String) : Option String :=
  match codesOf ct with
  | none => none
  | some codes =>
    match splitAtSep codes with
    | none => none
    | some (kcodes, pcodes) =>
      match decStrSym kcodes, decStrSym pcodes with
      | some k, some p => if k = key then some p else none
      | _, _ => none

/-! ## The encryption codec (src/encryption.js) -/

/-- The hard-coded default PBKDF2 salt of `deriveKeyFromPassword`. -/
def defaultSalt : String := "greenville_cash_salt"

/-- Embedding of `deriveKeyFromPassword(password)` (PBKDF2 with the default salt,
    10000 iterations, 256-bit output, rendered as a string): a deterministic
    collision-free function of salt and password. -/
def deriveKeyFromPassword (password : String) : String :=
  defaultSalt ++ "|" ++ password

/-- Two lowercase hex characters for one byte. -/
def hexPair (b : Nat) : List Char := [hexDigitChar (b / 16 % 16), hexDigitChar (b % 16)]

/-- CryptoJS hex rendering of a byte sequence (`iv.toString()`). -/
def toHexChars (bytes : List Nat) : List Char := bytes.flatMap hexPair

/-- Decode a hex character sequence into bytes (CryptoJS `Hex.parse`). -/
def hexDecodeBytes : List Char → Option (List Nat)
  | [] => some []
  | h :: lo :: rest =>
    match hexVal h, hexVal lo, hexDecodeBytes rest with
    | some a, some b, some bs => some ((16 * a + b) :: bs)
    | _, _, _ => none
  | [_] => none

/-- JavaScript `s.split(sep)` for a single-character separator. -/
def splitOnChar (sep : Char) : List Char → List (List Char)
  | [] => [[]]
  | c :: rest =>
    let r := splitOnChar sep rest
    if c = sep then [] :: r
    else (c :: r.headD []) :: r.tail

/-- The JavaScript `typeof data === 'object'` test (null and arrays included). -/
def Json.isObjType : Json → Bool
  | .null => true
  | .arr _ => true
  | .obj _ => true
  | _ => false

/-- `typeof data === 'object' ? JSON.stringify(data) : String(data)`. -/
def serializeData (data : Json) : String :=
  match data with
  | .str s => s
  | .num n => String.mk (intChars n)
  | .bool b => cond b "true" "false"
  | d => jsonStringify d

/-- Failure modes of `decryptData`; the source logs the specific cause and
    rethrows a generic error, the spec's taxonomy keeps them apart. -/
inductive CryptoError where
  | formatError
  | decryptionError
  deriving DecidableEq

/-- Embedding of `encryptData(data, password)`: serialize, derive the key, and
    frame the ciphertext as `iv_hex ++ ":" ++ ciphertext`.  The fresh random
    128-bit IV is an explicit byte-list argument. -/
def encryptData (data : Json) (password : String) (iv : List Nat) : String :=
  String.mk (toHexChars iv ++ ':' :: cipherChars (serializeData data) (deriveKeyFromPassword password))

/-- The decryption pipeline of `decryptData` up to (and including) the empty-result
    check, before the JSON-parse step: split on `:`, require exactly two parts,
    decrypt the second under the derived key. -/
def decryptRaw (encryptedData password : String) : Except CryptoError String :=
  match splitOnChar ':' encryptedData.toList with
  | [_ivPart, ctPart] =>
    match aesDecryptSym ctPart (deriveKeyFromPassword password) with
    | none => .error .decryptionError
    | some s => if s = "" then .error .decryptionError else .ok s
  | _ => .error .formatError

/-- Embedding of `decryptData(encryptedData, password)`: decrypt, then try to
    parse the text as JSON, falling back to the raw text when parsing fails. -/
def decryptData (encryptedData password : String) : Except CryptoError Json :=
  match decryptRaw encryptedData password with
  | .error e => .error e
  | .ok s =>
    match jsonParse s with
    | some v => .ok v
    | none => .ok (.str s)

/-! ## Browser persistent state

`localStorage`, `sessionStorage` and the cookie jar are origin-scoped key/value
maps; `document.cookie` reads render the jar as `name=value` pairs joined by
`;`, writes with a past expiry delete an entry — the jar is modelled directly
as a name → value map. -/

/-- The browser-persisted state the app reads and writes. -/
structure BrowserState where
  localStore : String → Option String
  sessionStore : String → Option String
  cookies : String → Option String

/-- `localStorage.setItem`. -/
def setLocal (k v : String) (st : BrowserState) : BrowserState :=
  { st with localStore := fun q => if q = k then some v else st.localStore q }

/-- `localStorage.removeItem`. -/
def removeLocal (k : String) (st : BrowserState) : BrowserState :=
  { st with localStore := fun q => if q = k then none else st.localStore q }

/-- `sessionStorage.setItem`. -/
def setSession (k v : String) (st : BrowserState) : BrowserState :=
  { st with sessionStore := fun q => if q = k then some v else st.sessionStore q }

/-- `sessionStorage.removeItem`. -/
def removeSession (k : String) (st : BrowserState) : BrowserState :=
  { st with sessionStore := fun q => if q = k then none else st.sessionStore q }

/-- Writing `document.cookie = "name=value; expires=<future>; path=/"`. -/
def setCookie (name v : String) (st : BrowserState) : BrowserState :=
  { st with cookies := fun q => if q = name then some v else st.cookies q }

/-- Writing `document.cookie = "name=; expires=<epoch>; path=/"` (deletion). -/
def removeCookie (name : String) (st : BrowserState) : BrowserState :=
  { st with cookies := fun q => if q = name then none else st.cookies q }

/-- JavaScript truthiness of a `getItem` result: `null` and `""` are falsy. -/
def truthyOpt : Option String → Bool
  | none => false
  | some s => s != ""

/-- A browser with empty storage and no cookies. -/
def emptyBrowserState : BrowserState :=
  ⟨fun _ => none, fun _ => none, fun _ => none⟩

/-! ## Session key cache (src/encryption.js) -/

/-- `storeSessionKey(key)`: put the key into session storage. -/
def storeSessionKey (key : String) (st : BrowserState) : BrowserState :=
  setSession "gcash_session_key" key st

/-- `getSessionKey()`: the cached session key, if any. -/
def getSessionKey (st : BrowserState) : Option String :=
  st.sessionStore "gcash_session_key"

/-- `clearSessionKey()`: remove the cached session key. -/
def clearSessionKey (st : BrowserState) : BrowserState :=
  removeSession "gcash_session_key" st

/-! ## Shared form helpers (main script) -/

/-- The whitespace class trimmed by `String.prototype.trim` and excluded by the
    email regex's `\s` (ASCII portion). -/
def isJsWs (c : Char) : Bool :=
  c == ' ' || c == '\t' || c == '\n' || c == '\r' || c == '\x0b' || c == '\x0c'

/-- JavaScript `s.trim()`. -/
def jsTrim (s : String) : String :=
  String.mk (((s.toList.dropWhile isJsWs).reverse.dropWhile isJsWs).reverse)

/-- ASCII lowercasing of one character (`String.prototype.toLowerCase`). -/
def jsLowerChar (c : Char) : Char :=
  if 'A' ≤ c ∧ c ≤ 'Z' then Char.ofNat (c.toNat + 32) else c

/-- JavaScript `s.toLowerCase()` (ASCII range; the app's emails are ASCII). -/
def jsToLower (s : String) : String := String.mk (s.toList.map jsLowerChar)

/-- The character class `[^\s@]` of the email regex. -/
def emailAtomChar (c : Char) : Bool := !isJsWs c && c != '@'

/-- Whether a character list contains a `.` that is neither its first nor its
    last element.  A string of `[^\s@]` characters matches `[^\s@]+\.[^\s@]+`
    exactly when it has such an interior dot ( `.` itself lies in `[^\s@]`, so
    the backtracking regex engine may pick any interior dot). -/
def hasInteriorDot (l : List Char) : Bool := (l.drop 1).dropLast.contains '.'

/-- Embedding of `isValidEmail` — the regex `/^[^\s@]+@[^\s@]+\.[^\s@]+$/`:
    exactly one `@` (the atom class excludes it), a nonempty atom-only local
    part, and a domain of atom characters containing an interior dot. -/
def isValidEmail (email : String) : Bool :=
  match splitOnChar '@' email.toList with
  | [localPart, domain] =>
    !localPart.isEmpty && localPart.all emailAtomChar
      && domain.all emailAtomChar && hasInteriorDot domain
  | _ => false

/-- The result record of `validatePasswordStrength`. -/
structure PasswordStrength where
  isValid : Bool
  score : Nat
  feedback : String

/-- The regex class `[a-z]`. -/
def isLowerAZ (c : Char) : Bool := 'a' ≤ c && c ≤ 'z'

/-- The regex class `[A-Z]`. -/
def isUpperAZ (c : Char) : Bool := 'A' ≤ c && c ≤ 'Z'

/-- The regex class `[0-9]`. -/
def isDigit09 (c : Char) : Bool := '0' ≤ c && c ≤ '9'

/-- The regex class `[^A-Za-z0-9]`. -/
def isSpecialChar (c : Char) : Bool := !(isLowerAZ c || isUpperAZ c || isDigit09 c)

/-- Embedding of `validatePasswordStrength`: minimum length 8, one point per
    character class present, valid from score 2 up. -/
def validatePasswordStrength (password : String) : PasswordStrength :=
  if password.length < 8 then
    ⟨false, 0, "Password should be at least 8 characters long"⟩
  else
    let score :=
      (if password.toList.any isLowerAZ then 1 else 0)
      + (if password.toList.any isUpperAZ then 1 else 0)
      + (if password.toList.any isDigit09 then 1 else 0)
      + (if password.toList.any isSpecialChar then 1 else 0)
    let feedback :=
      if score ≤ 1 then "Weak password"
      else if score = 2 then "Fair password"
      else if score = 3 then "Good password"
      else "Strong password"
    ⟨decide (2 ≤ score), score, feedback⟩

/-! ## Auth flow (src/auth.js) -/

/-- The fresh user record `handleSignup` builds (`createdAt` is
    `new Date().toISOString()`, passed in as `now`); field order matches the
    object literal, which `JSON.stringify` preserves. -/
def signupRecord (fullname email now : String) : Json :=
  .obj [("fullname", .str fullname),
        ("email", .str email),
        ("createdAt", .str now),
        ("accounts", .arr []),
        ("transactions", .arr []),
        ("budgets", .arr []),
        ("settings", .obj [("currency", .str "USD"),
                           ("theme", .str "light"),
                           ("notifications", .bool true)])]

/-- Outcome of a signup attempt: the notification shown and the new state. -/
structure SignupResult where
  message : String
  kind : String
  state : BrowserState

/-- Embedding of `handleSignup`, with the form fields, the checkbox, the current
    time string and the random IV as explicit inputs. -/
def handleSignup (fullname email password confirmPassword : String)
    (termsAccepted : Bool) (now : String) (iv : List Nat)
    (st : BrowserState) : SignupResult :=
  if fullname = "" ∨ (jsTrim fullname).length < 2 then
    ⟨"Please enter your full name", "error", st⟩
  else if !isValidEmail email then
    ⟨"Please enter a valid email address", "error", st⟩
  else if !(validatePasswordStrength password).isValid then
    ⟨(validatePasswordStrength password).feedback, "error", st⟩
  else if password ≠ confirmPassword then
    ⟨"Passwords do not match", "error", st⟩
  else if !termsAccepted then
    ⟨"You must accept the Terms and Conditions", "error", st⟩
  else if truthyOpt (st.localStore ("gcash_user_" ++ jsToLower email)) then
    ⟨"This email is already registered", "error", st⟩
  else
    let userData := signupRecord fullname (jsToLower email) now
    let encryptedUserData := encryptData userData password iv
    let st1 := setLocal ("gcash_user_" ++ jsToLower email) encryptedUserData st
    let st2 := setLocal "gcash_logged_in" "true" st1
    let st3 := setLocal "gcash_current_user" (jsToLower email) st2
    ⟨"Account created successfully! Redirecting...", "success", st3⟩

/-- Embedding of `handleLogout`: remove the logged-in flag and the current-user
    pointer, delete the remember-me cookie.  (It never touches session storage;
    `clearSessionKey` has no caller in the sources.) -/
def handleLogout (st : BrowserState) : BrowserState :=
  removeCookie "gcash_remember" (removeLocal "gcash_current_user" (removeLocal "gcash_logged_in" st))

/-- Embedding of `checkRememberMeCookie`: when a `gcash_remember` cookie holds a
    truthy email with a stored blob, set the logged-in flag and the current-user
    pointer and report success; otherwise report failure and change nothing. -/
def checkRememberMeCookie (st : BrowserState) : Bool × BrowserState :=
  match st.cookies "gcash_remember" with
  | none => (false, st)
  | some email =>
    if email ≠ "" ∧ truthyOpt (st.localStore ("gcash_user_" ++ email)) then
      (true, setLocal "gcash_current_user" email (setLocal "gcash_logged_in" "true" st))
    else (false, st)

/-! ## Storage layer (src/storage.js) -/

/-- One remote interaction of the backup path, as the code observes it: the
    `fetch` either rejects, or resolves with an `ok` flag and — for the create
    branch — the identifier of the created Gist. -/
inductive FetchOutcome where
  | netError
  | resp (ok : Bool) (gistId : String)

/-- Embedding of `backupUserData(encryptedData)`: no-op unless the backup flag
    and token are configured; PATCH an existing Gist or POST a new one and
    remember its id; record the backup time on success; any failure is caught
    and returned as `false`. -/
def backupUserData (encryptedData : String) (net : FetchOutcome) (now : String)
    (st : BrowserState) : Bool × BrowserState :=
  let _ := encryptedData
  if !(st.localStore "gcash_backup_enabled" == some "true") then (false, st)
  else if !truthyOpt (st.localStore "gcash_github_token") then (false, st)
  else
    match st.localStore "gcash_current_user" with
    | none => (false, st)
    | some _email =>
      match net with
      | .netError => (false, st)
      | .resp ok gistId =>
        if truthyOpt (st.localStore "gcash_backup_gist_id") then
          if ok then (true, setLocal "gcash_last_backup" now st) else (false, st)
        else
          if ok then
            (true, setLocal "gcash_last_backup" now (setLocal "gcash_backup_gist_id" gistId st))
          else (false, st)

/-- Embedding of `saveUserData(userData)`: requires a truthy current-user pointer
    and a truthy cached session key; encrypts under the session key, writes the
    blob, then runs the best-effort backup (whose result is ignored). -/
def saveUserData (userData : Json) (iv : List Nat) (net : FetchOutcome)
    (now : String) (st : BrowserState) : Bool × BrowserState :=
  match st.localStore "gcash_current_user" with
  | none => (false, st)
  | some email =>
    if email = "" then (false, st)
    else
      match getSessionKey st with
      | none => (false, st)
      | some sessionKey =>
        if sessionKey = "" then (false, st)
        else
          let encrypted := encryptData userData sessionKey iv
          let st1 := setLocal ("gcash_user_" ++ email) encrypted st
          let st2 := (backupUserData encrypted net now st1).2
          (true, st2)

/-- Embedding of `loadUserData()`: requires a current-user pointer, a stored
    blob and a cached session key; decrypts the blob under the session key;
    every failure is caught and returned as `null`. -/
def loadUserData (st : BrowserState) : Option Json :=
  match st.localStore "gcash_current_user" with
  | none => none
  | some email =>
    if email = "" then none
    else
      match st.localStore ("gcash_user_" ++ email) with
      | none => none
      | some encryptedData =>
        if encryptedData = "" then none
        else
          match getSessionKey st with
          | none => none
          | some sessionKey =>
            if sessionKey = "" then none
            else
              match decryptData encryptedData sessionKey with
              | .ok v => some v
              | .error _ => none

/-! ## Proof-support definitions -/

/-- The input does not begin with a decimal digit (so a preceding number token
    cannot greedily consume into it). -/
def noDigitHead : List Char → Prop
  | [] => True
  | c :: _ => digitVal c = none

mutual

/-- Node-count measure of a JSON value, used as parser fuel in proofs. -/
def sizeJ : Json → Nat
  | .null => 1
  | .bool _ => 1
  | .num _ => 1
  | .str _ => 1
  | .arr es => sizeL es + 1
  | .obj fs => sizeF fs + 1

/-- Node-count measure of an array's elements. -/
def sizeL : List Json → Nat
  | [] => 0
  | e :: es => sizeJ e + sizeL es + 1

/-- Node-count measure of an object's fields. -/
def sizeF : List (String × Json) → Nat
  | [] => 0
  | (_, v) :: fs => sizeJ v + sizeF fs + 1

end

/-! # Theorems

First the library of supporting lemmas about the embedded primitives, then one
theorem per specification claim (with witnesses for the hypothesised ones). -/

/-! ## Digits -/

/-- Every digit produced by `digitsFuel` is below the base (for bases ≥ 2). -/
theorem digitsFuel_lt_base (b : Nat) (hb : 2 ≤ b) :
    ∀ fuel n d, d ∈ digitsFuel b fuel n → d < b := by
  intro fuel
  induction fuel with
  | zero => intro n d h; simp [digitsFuel] at h
  | succ f ih =>
    intro n d h
    match n with
    | 0 => simp [digitsFuel] at h
    | n + 1 =>
      simp only [digitsFuel, List.mem_cons] at h
      rcases h with h | h
      · subst h; exact Nat.mod_lt _ (by omega)
      · exact ih _ _ h

/-- `ofDigitsB` inverts `digitsFuel` whenever the fuel covers the number. -/
theorem ofDigitsB_digitsFuel (b : Nat) (hb : 2 ≤ b) :
    ∀ fuel n, n ≤ fuel → ofDigitsB b (digitsFuel b fuel n) = n := by
  intro fuel
  induction fuel with
  | zero => intro n h; interval_cases n; simp [digitsFuel, ofDigitsB]
  | succ f ih =>
    intro n h
    match n with
    | 0 => simp [digitsFuel, ofDigitsB]
    | n + 1 =>
      have hdiv : (n + 1) / b < n + 1 := Nat.div_lt_self (Nat.succ_pos n) (by omega)
      have := ih ((n + 1) / b) (by omega)
      simp only [digitsFuel, ofDigitsB, List.foldr_cons]
      simp only [ofDigitsB] at this
      rw [this]
      exact Nat.mod_add_div (n + 1) b

/-- `ofDigitsB` inverts `digitsB`. -/
theorem ofDigitsB_digitsB (b : Nat) (hb : 2 ≤ b) (n : Nat) :
    ofDigitsB b (digitsB b n) = n :=
  ofDigitsB_digitsFuel b hb n n (Nat.le_refl n)

/-- Every digit of `digitsB` is below the base (for bases ≥ 2). -/
theorem digitsB_lt_base (b : Nat) (hb : 2 ≤ b) (n d : Nat) (h : d ∈ digitsB b n) :
    d < b :=
  digitsFuel_lt_base b hb n n d h

/-- `digitsB` of a positive number is nonempty. -/
theorem digitsB_ne_nil (b n : Nat) (h : n ≠ 0) : digitsB b n ≠ [] := by
  match n with
  | 0 => exact absurd rfl h
  | n + 1 => simp [digitsB, digitsFuel]

/-- `digitsVal` of a reversed little-endian digit list is its `ofDigitsB` value. -/
theorem digitsVal_reverse (l : List Nat) : digitsVal l.reverse = ofDigitsB 10 l := by
  unfold digitsVal ofDigitsB
  rw [List.foldl_reverse]
  induction l with
  | nil => rfl
  | cons d t ih => simp only [List.foldr_cons, ih]; omega

/-! ## Character tables -/

/-- `digitChar10` always lands in the decimal digit table. -/
theorem digitChar10_mem (n : Nat) : digitChar10 n ∈ decDigitChars := by
  unfold digitChar10
  rcases Nat.lt_or_ge n decDigitChars.length with h | h
  · exact List.getD_eq_getElem decDigitChars '9' h ▸ decDigitChars.getElem_mem h
  · rw [List.getD_eq_default _ _ h]; decide

/-- `hexDigitChar` always lands in the hex digit table. -/
theorem hexDigitChar_mem (n : Nat) : hexDigitChar n ∈ hexDigitChars := by
  unfold hexDigitChar
  rcases Nat.lt_or_ge n hexDigitChars.length with h | h
  · exact List.getD_eq_getElem hexDigitChars 'f' h ▸ hexDigitChars.getElem_mem h
  · rw [List.getD_eq_default _ _ h]; decide

/-- `b64Char` always lands in the base64 alphabet. -/
theorem b64Char_mem (n : Nat) : b64Char n ∈ base64Alphabet := by
  unfold b64Char
  rcases Nat.lt_or_ge n base64Alphabet.length with h | h
  · exact List.getD_eq_getElem base64Alphabet 'A' h ▸ base64Alphabet.getElem_mem h
  · rw [List.getD_eq_default _ _ h]; decide

/-- Reading a decimal digit character back gives its value. -/
theorem digitVal_digitChar10 : ∀ d, d < 10 → digitVal (digitChar10 d) = some d := by
  decide

/-- Reading a hex digit character back gives its value. -/
theorem hexVal_hexDigitChar : ∀ d, d < 16 → hexVal (hexDigitChar d) = some d := by
  decide

/-- Looking a base64 character back up gives its index. -/
theorem b64Index_b64Char : ∀ n, n < 64 → b64Index (b64Char n) = some n := by
  decide

/-- `charFromCode` recovers a character from its own code point. -/
theorem charFromCode_toNat (c : Char) : charFromCode c.toNat = some c := by
  simp [charFromCode, Char.ofNat_toNat]

/-! ## Symbolic cipher inversion -/

/-- Every code in a character's cipher rendering is at most the terminator 62. -/
theorem mem_encCharSym_le (c : Char) (x : Nat) (h : x ∈ encCharSym c) : x ≤ 62 := by
  simp only [encCharSym, List.mem_append, List.mem_singleton] at h
  rcases h with h | h
  · exact Nat.le_of_lt (digitsB_lt_base 62 (by omega) _ x h)
  · omega

/-- Every code in a string's cipher rendering is at most 62. -/
theorem mem_encStrSym_le (s : String) (x : Nat) (h : x ∈ encStrSym s) : x ≤ 62 := by
  simp only [encStrSym, List.mem_flatMap] at h
  obtain ⟨c, _, hc⟩ := h
  exact mem_encCharSym_le c x hc

/-- `splitAtSep` splits exactly at an explicitly placed separator. -/
theorem splitAtSep_append (a b : List Nat) (ha : ∀ x ∈ a, x ≠ 63) :
    splitAtSep (a ++ 63 :: b) = some (a, b) := by
  induction a with
  | nil => simp [splitAtSep]
  | cons x t ih =>
    have hx : x ≠ 63 := ha x (List.mem_cons_self x t)
    have ht := ih (fun y hy => ha y (List.mem_cons_of_mem x hy))
    simp only [List.cons_append, splitAtSep, if_neg hx]
    rw [show t.append (63 :: b) = t ++ 63 :: b from rfl, ht]

/-- Digit codes accumulate through `decCharsSym`. -/
theorem decCharsSym_digits (ds : List Nat) (hds : ∀ d ∈ ds, d < 62) :
    ∀ l acc, decCharsSym (ds ++ l) acc = decCharsSym l (ds.reverse ++ acc) := by
  induction ds with
  | nil => intro l acc; simp
  | cons d t ih =>
    intro l acc
    have hd : d < 62 := hds d (List.mem_cons_self d t)
    simp only [List.cons_append, decCharsSym, if_neg (by omega : ¬ d = 62), if_pos hd]
    rw [show t.append l = t ++ l from rfl, ih (fun y hy => hds y (List.mem_cons_of_mem d hy))]
    simp

/-- `decCharsSym` inverts the per-character cipher rendering. -/
theorem decCharsSym_flatMap (cs : List Char) :
    decCharsSym (cs.flatMap encCharSym) [] = some cs := by
  induction cs with
  | nil => simp [decCharsSym]
  | cons c t ih =>
    have hds : ∀ d ∈ digitsB 62 c.toNat, d < 62 :=
      fun d h => digitsB_lt_base 62 (by omega) _ d h
    simp only [List.flatMap_cons, encCharSym, List.append_assoc, List.cons_append,
      List.nil_append]
    rw [decCharsSym_digits (digitsB 62 c.toNat) hds]
    simp only [decCharsSym, if_pos rfl, List.append_nil, List.reverse_reverse]
    rw [ofDigitsB_digitsB 62 (by omega), charFromCode_toNat, ih]
    simp

/-- `decStrSym` inverts `encStrSym`. -/
theorem decStrSym_encStrSym (s : String) : decStrSym (encStrSym s) = some s := by
  unfold decStrSym encStrSym
  rw [decCharsSym_flatMap]
  rfl

/-- `codesOf` inverts `b64Char` renderings of in-range code lists. -/
theorem codesOf_map_b64Char (l : List Nat) (hl : ∀ x ∈ l, x < 64) :
    codesOf (l.map b64Char) = some l := by
  induction l with
  | nil => rfl
  | cons x t ih =>
    simp only [List.map_cons, codesOf]
    rw [b64Index_b64Char x (hl x (List.mem_cons_self x t)),
      ih (fun y hy => hl y (List.mem_cons_of_mem x hy))]

/-- Symbolic decryption of a symbolic ciphertext: succeeds with the embedded
    plaintext exactly when the supplied key is the one encrypted under. -/
theorem aesDecryptSym_cipherChars (plain key key2 : String) :
    aesDecryptSym (cipherChars plain key) key2
      = if key = key2 then some plain else none := by
  unfold aesDecryptSym cipherChars cipherCodes
  have hcodes : ∀ x ∈ encStrSym key ++ 63 :: encStrSym plain, x < 64 := by
    intro x hx
    simp only [List.mem_append, List.mem_cons] at hx
    rcases hx with h | h | h
    · exact Nat.lt_of_le_of_lt (mem_encStrSym_le key x h) (by omega)
    · omega
    · exact Nat.lt_of_le_of_lt (mem_encStrSym_le plain x h) (by omega)
  have hsep : ∀ x ∈ encStrSym key, x ≠ 63 := by
    intro x hx
    have := mem_encStrSym_le key x hx; omega
  simp only [codesOf_map_b64Char _ hcodes, splitAtSep_append _ _ hsep, decStrSym_encStrSym]

/-- The key-derivation embedding is collision-free in the password. -/
theorem deriveKeyFromPassword_inj (p1 p2 : String)
    (h : deriveKeyFromPassword p1 = deriveKeyFromPassword p2) : p1 = p2 := by
  unfold deriveKeyFromPassword at h
  have hd := congrArg String.data h
  simp only [String.data_append] at hd
  have := List.append_cancel_left hd
  cases p1; cases p2; exact congrArg String.mk this

/-! ## Blob framing -/

/-- `split` on a list without the separator yields the single whole segment. -/
theorem splitOnChar_not_mem (sep : Char) (l : List Char) (h : sep ∉ l) :
    splitOnChar sep l = [l] := by
  induction l with
  | nil => rfl
  | cons c t ih =>
    have hc : c ≠ sep := fun hcs => h (hcs ▸ List.mem_cons_self c t)
    simp only [splitOnChar, ih (fun ht => h (List.mem_cons_of_mem c ht)), if_neg hc]
    rfl

/-- `split` on exactly one separator yields exactly the two surrounding segments. -/
theorem splitOnChar_append (sep : Char) (a b : List Char) (ha : sep ∉ a) (hb : sep ∉ b) :
    splitOnChar sep (a ++ sep :: b) = [a, b] := by
  induction a with
  | nil => simp [splitOnChar, splitOnChar_not_mem sep b hb]
  | cons c t ih =>
    have hc : c ≠ sep := fun hcs => ha (hcs ▸ List.mem_cons_self c t)
    have ht := ih (fun hm => ha (List.mem_cons_of_mem c hm))
    simp only [List.cons_append, splitOnChar]
    rw [show t.append (sep :: b) = t ++ sep :: b from rfl, ht]
    simp [if_neg hc]

/-- Base64 characters are never the blob separator. -/
theorem b64Char_ne_colon (n : Nat) : b64Char n ≠ ':' := by
  have hall : ∀ c ∈ base64Alphabet, c ≠ ':' := by decide
  exact hall _ (b64Char_mem n)

/-- Hex digit characters are never the blob separator. -/
theorem hexDigitChar_ne_colon (n : Nat) : hexDigitChar n ≠ ':' := by
  have hall : ∀ c ∈ hexDigitChars, c ≠ ':' := by decide
  exact hall _ (hexDigitChar_mem n)

/-- The ciphertext segment contains no separator. -/
theorem colon_not_mem_cipherChars (plain key : String) : ':' ∉ cipherChars plain key := by
  intro h
  simp only [cipherChars, List.mem_map] at h
  obtain ⟨n, _, hn⟩ := h
  exact b64Char_ne_colon n hn

/-- The IV segment contains no separator. -/
theorem colon_not_mem_toHexChars (iv : List Nat) : ':' ∉ toHexChars iv := by
  intro h
  simp only [toHexChars, List.mem_flatMap, hexPair] at h
  obtain ⟨b, _, hb⟩ := h
  simp only [List.mem_cons, List.not_mem_nil, or_false] at hb
  rcases hb with hb | hb
  · exact hexDigitChar_ne_colon _ hb.symm
  · exact hexDigitChar_ne_colon _ hb.symm

/-- Splitting an `encryptData` blob recovers the IV segment and the ciphertext. -/
theorem splitOnChar_encryptData (data : Json) (password : String) (iv : List Nat) :
    splitOnChar ':' (encryptData data password iv).toList
      = [toHexChars iv, cipherChars (serializeData data) (deriveKeyFromPassword password)] := by
  unfold encryptData
  rw [show (String.mk (toHexChars iv ++ ':' ::
        cipherChars (serializeData data) (deriveKeyFromPassword password))).toList
      = toHexChars iv ++ ':' ::
        cipherChars (serializeData data) (deriveKeyFromPassword password) from rfl]
  exact splitOnChar_append ':' _ _ (colon_not_mem_toHexChars iv)
    (colon_not_mem_cipherChars _ _)

/-- Decrypting an `encryptData` blob with the matching password yields the
    serialized payload (unless that payload is the empty string, which trips the
    empty-result check). -/
theorem decryptRaw_encrypt_same (data : Json) (password : String) (iv : List Nat) :
    decryptRaw (encryptData data password iv) password
      = if serializeData data = "" then .error .decryptionError
        else .ok (serializeData data) := by
  unfold decryptRaw
  rw [splitOnChar_encryptData]
  simp [aesDecryptSym_cipherChars]

/-- Decrypting an `encryptData` blob with any other password fails with the
    empty-result error. -/
theorem decryptRaw_encrypt_other (data : Json) (p1 p2 : String) (iv : List Nat)
    (h : p1 ≠ p2) :
    decryptRaw (encryptData data p1 iv) p2 = .error .decryptionError := by
  unfold decryptRaw
  rw [splitOnChar_encryptData]
  have hne : deriveKeyFromPassword p1 ≠ deriveKeyFromPassword p2 :=
    fun hk => h (deriveKeyFromPassword_inj p1 p2 hk)
  simp only [aesDecryptSym_cipherChars, if_neg hne]

/-! ## Printer shape facts -/

/-- `skipWs` leaves input headed by a non-whitespace character alone. -/
theorem skipWs_cons (c : Char) (l : List Char) (h : isJsonWs c = false) :
    skipWs (c :: l) = c :: l := by
  simp [skipWs, h]

/-- Every JSON value has positive size. -/
theorem sizeJ_pos (v : Json) : 1 ≤ sizeJ v := by
  cases v <;> simp [sizeJ]

/-- Nonempty element lists have positive size. -/
theorem sizeL_pos (e : Json) (es : List Json) : 1 ≤ sizeL (e :: es) := by
  simp [sizeL]

/-- Nonempty field lists have positive size. -/
theorem sizeF_pos (f : String × Json) (fs : List (String × Json)) : 1 ≤ sizeF (f :: fs) := by
  obtain ⟨k, v⟩ := f; simp [sizeF]

/-- The decimal rendering of a natural number is a digit-character image of a
    nonempty digit-value list whose value is the number itself. -/
theorem natChars_spec (n : Nat) :
    ∃ ds, natChars n = ds.map digitChar10 ∧ (∀ d ∈ ds, d < 10)
      ∧ digitsVal ds = n ∧ ds ≠ [] := by
  by_cases h : n = 0
  · subst h
    exact ⟨[0], by simp [natChars, digitChar10, decDigitChars], by simp,
      by simp [digitsVal], by simp⟩
  · refine ⟨(digitsB 10 n).reverse, by simp [natChars, h], ?_, ?_, ?_⟩
    · intro d hd
      exact digitsB_lt_base 10 (by omega) n d (List.mem_reverse.mp hd)
    · rw [digitsVal_reverse, ofDigitsB_digitsB 10 (by omega)]
    · simp [digitsB_ne_nil 10 n h]

/-- `takeDigits` consumes exactly a digit-character image and stops at a
    non-digit boundary. -/
theorem takeDigits_map (ds : List Nat) (hds : ∀ d ∈ ds, d < 10) :
    ∀ rest, noDigitHead rest → takeDigits (ds.map digitChar10 ++ rest) = (ds, rest) := by
  induction ds with
  | nil =>
    intro rest hrest
    match rest with
    | [] => rfl
    | c :: r => simp only [noDigitHead] at hrest; simp [takeDigits, hrest]
  | cons d t ih =>
    intro rest hrest
    have hd : d < 10 := hds d (List.mem_cons_self d t)
    have ht := ih (fun y hy => hds y (List.mem_cons_of_mem d hy)) rest hrest
    simp only [List.map_cons, List.cons_append, takeDigits,
      digitVal_digitChar10 d hd]
    rw [show (List.map digitChar10 t).append rest = List.map digitChar10 t ++ rest from rfl, ht]

/-- Dispatch facts about decimal digit characters: not whitespace, not any other
    token's first character, not a closing bracket, and read back as digits. -/
theorem decDigit_facts : ∀ c ∈ decDigitChars,
    isJsonWs c = false ∧ ¬c = 'n' ∧ ¬c = 't' ∧ ¬c = 'f' ∧ ¬c = '"' ∧ ¬c = '['
      ∧ ¬c = '{' ∧ ¬c = '-' ∧ ¬c = ']' ∧ ¬c = '}' ∧ (digitVal c).isSome := by
  decide

/-- Every printed JSON value starts with a character that is not whitespace and
    not a closing bracket. -/
theorem toChars_head (v : Json) :
    ∃ c cs, Json.toChars v = c :: cs ∧ isJsonWs c = false ∧ ¬c = ']' ∧ ¬c = '}' := by
  cases v with
  | null => exact ⟨'n', _, rfl, by decide, by decide, by decide⟩
  | bool b =>
    cases b
    · exact ⟨'f', _, rfl, by decide, by decide, by decide⟩
    · exact ⟨'t', _, rfl, by decide, by decide, by decide⟩
  | num n =>
    by_cases h : n < 0
    · exact ⟨'-', natChars n.natAbs, by simp [Json.toChars, intChars, h],
        by decide, by decide, by decide⟩
    · obtain ⟨ds, hmap, hlt, _, hne⟩ := natChars_spec n.toNat
      obtain ⟨d, t, rfl⟩ : ∃ d t, ds = d :: t := by
        cases ds with
        | nil => exact absurd rfl hne
        | cons d t => exact ⟨d, t, rfl⟩
      have hf := decDigit_facts _ (digitChar10_mem d)
      refine ⟨digitChar10 d, t.map digitChar10, ?_, hf.1, hf.2.2.2.2.2.2.2.2.1,
        hf.2.2.2.2.2.2.2.2.2.1⟩
      simp [Json.toChars, intChars, h, hmap]
  | str s => exact ⟨'"', _, rfl, rfl, by decide, by decide⟩
  | arr es => refine ⟨'[', _, rfl, ?_, ?_, ?_⟩ <;> decide
  | obj fs => exact ⟨'{', _, rfl, rfl, by decide, by decide⟩

/-- Parsing a printed string body recovers the original characters and stops at
    the closing quote. -/
theorem parseStringBody_flatMap (cs : List Char) :
    ∀ rest, parseStringBody (cs.flatMap escapeChar ++ '"' :: rest) = some (cs, rest) := by
  induction cs with
  | nil => intro rest; rw [parseStringBody.eq_def]; simp
  | cons c t ih =>
    intro rest
    simp only [List.flatMap_cons, List.append_assoc]
    by_cases h1 : c = '"'
    · subst h1; rw [parseStringBody.eq_def]; simp [escapeChar, unescape, ih rest]
    by_cases h2 : c = '\\'
    · subst h2; rw [parseStringBody.eq_def]; simp [escapeChar, unescape, ih rest]
    by_cases h3 : c = '\x08'
    · subst h3; rw [parseStringBody.eq_def]; simp [escapeChar, unescape, ih rest]
    by_cases h4 : c = '\t'
    · subst h4; rw [parseStringBody.eq_def]; simp [escapeChar, unescape, ih rest]
    by_cases h5 : c = '\n'
    · subst h5; rw [parseStringBody.eq_def]; simp [escapeChar, unescape, ih rest]
    by_cases h6 : c = '\x0c'
    · subst h6; rw [parseStringBody.eq_def]; simp [escapeChar, unescape, ih rest]
    by_cases h7 : c = '\r'
    · subst h7; rw [parseStringBody.eq_def]; simp [escapeChar, unescape, ih rest]
    by_cases h8 : c.toNat < 32
    · simp only [escapeChar, if_neg h1, if_neg h2, if_neg h3, if_neg h4, if_neg h5,
        if_neg h6, if_neg h7, if_pos h8, List.cons_append, List.nil_append]
      have hdiv : c.toNat / 16 < 16 := by omega
      have hmod : c.toNat % 16 < 16 := by omega
      have h0 : hexVal '0' = some 0 := by decide
      rw [parseStringBody.eq_def]
      simp [h0, hexVal_hexDigitChar _ hdiv, hexVal_hexDigitChar _ hmod, ih rest]
      rw [show c.toNat / 16 * 16 + c.toNat % 16 = c.toNat from by omega, charFromCode_toNat]
    · simp only [escapeChar, if_neg h1, if_neg h2, if_neg h3, if_neg h4, if_neg h5,
        if_neg h6, if_neg h7, if_neg h8, List.cons_append, List.nil_append]
      rw [parseStringBody.eq_def]
      simp [h1, h2, ih rest]

/-- `skipWs` leaves printed JSON (which never starts with whitespace) alone. -/
theorem skipWs_toChars (v : Json) (l : List Char) :
    skipWs (Json.toChars v ++ l) = Json.toChars v ++ l := by
  obtain ⟨c, cs, he, hnws, _, _⟩ := toChars_head v
  rw [he, List.cons_append, skipWs_cons _ _ hnws]

/-- `noDigitHead` holds for input headed by a non-digit character. -/
theorem noDigitHead_cons (c : Char) (l : List Char) (h : digitVal c = none) :
    noDigitHead (c :: l) := h

/-- `noDigitHead` holds for empty input. -/
theorem noDigitHead_nil : noDigitHead [] := trivial

/-- Size of an array node. -/
theorem sizeJ_arr (es : List Json) : sizeJ (.arr es) = sizeL es + 1 := by simp [sizeJ]

/-- Size of an object node. -/
theorem sizeJ_obj (fs : List (String × Json)) : sizeJ (.obj fs) = sizeF fs + 1 := by
  simp [sizeJ]

/-- Size of a nonempty element list. -/
theorem sizeL_cons (e : Json) (es : List Json) :
    sizeL (e :: es) = sizeJ e + sizeL es + 1 := by simp [sizeL]

/-- Size of a nonempty field list. -/
theorem sizeF_cons (k : String) (v : Json) (fs : List (String × Json)) :
    sizeF ((k, v) :: fs) = sizeJ v + sizeF fs + 1 := by simp [sizeF]

/-- Size of an empty element list. -/
theorem sizeL_nil : sizeL [] = 0 := by simp [sizeL]

/-- Size of an empty field list. -/
theorem sizeF_nil : sizeF [] = 0 := by simp [sizeF]

/-- Round-trip of the JSON printer and parser, by simultaneous induction on the
    parser fuel: any printed value parses back, consuming exactly its own text
    (provided what follows cannot extend a number token), and printed
    element/field lists parse back up to their closing bracket. -/
theorem parse_print_all : ∀ n : Nat,
    (∀ v rest, sizeJ v ≤ n → noDigitHead rest →
      parseVal n (Json.toChars v ++ rest) = some (v, rest))
    ∧ (∀ es rest, es ≠ [] → sizeL es ≤ n →
      parseElems n (arrChars es ++ ']' :: rest) = some (es, rest))
    ∧ (∀ fs rest, fs ≠ [] → sizeF fs ≤ n →
      parseFields n (objChars fs ++ '}' :: rest) = some (fs, rest)) := by
  intro n
  induction n with
  | zero =>
    refine ⟨?_, ?_, ?_⟩
    · intro v rest hs _
      exact absurd (Nat.le_trans (sizeJ_pos v) hs) (by omega)
    · intro es rest hne hs
      cases es with
      | nil => exact absurd rfl hne
      | cons e t => exact absurd (Nat.le_trans (sizeL_pos e t) hs) (by omega)
    · intro fs rest hne hs
      cases fs with
      | nil => exact absurd rfl hne
      | cons f t => exact absurd (Nat.le_trans (sizeF_pos f t) hs) (by omega)
  | succ n ih =>
    obtain ⟨ihP, ihQ, ihR⟩ := ih
    refine ⟨?_, ?_, ?_⟩
    · intro v rest hs hrest
      cases v with
      | null =>
        rw [parseVal.eq_def]
        simp [Json.toChars, skipWs, isJsonWs]
      | bool b =>
        cases b <;> (rw [parseVal.eq_def]; simp [Json.toChars, skipWs, isJsonWs])
      | str s =>
        rw [parseVal.eq_def]
        simp only [Json.toChars, quoteChars, List.cons_append, List.append_assoc,
          List.singleton_append]
        rw [skipWs_cons _ _ (by decide)]
        simp [parseStringBody_flatMap]
      | num m =>
        by_cases hneg : m < 0
        · obtain ⟨ds, hmap, hlt, hval, hdsne⟩ := natChars_spec m.natAbs
          obtain ⟨d, t, rfl⟩ : ∃ d t, ds = d :: t := by
            cases ds with
            | nil => exact absurd rfl hdsne
            | cons d t => exact ⟨d, t, rfl⟩
          rw [parseVal.eq_def]
          simp only [Json.toChars, intChars, if_pos hneg, List.cons_append]
          rw [skipWs_cons _ _ (by decide), hmap]
          have htd := takeDigits_map (d :: t) hlt rest hrest
          simp only [List.map_cons, List.cons_append] at htd
          simp [htd, hval]
          rw [Int.abs_eq_natAbs]
          omega
        · obtain ⟨ds, hmap, hlt, hval, hdsne⟩ := natChars_spec m.toNat
          obtain ⟨d, t, rfl⟩ : ∃ d t, ds = d :: t := by
            cases ds with
            | nil => exact absurd rfl hdsne
            | cons d t => exact ⟨d, t, rfl⟩
          have hd10 : d < 10 := hlt d (List.mem_cons_self d t)
          have hf := decDigit_facts _ (digitChar10_mem d)
          rw [parseVal.eq_def]
          simp only [Json.toChars, intChars, if_neg hneg, hmap, List.map_cons,
            List.cons_append]
          rw [skipWs_cons _ _ hf.1]
          have htd := takeDigits_map (d :: t) hlt rest hrest
          simp only [List.map_cons, List.cons_append] at htd
          simp [hf.2.1, hf.2.2.1, hf.2.2.2.1, hf.2.2.2.2.1, hf.2.2.2.2.2.1,
            hf.2.2.2.2.2.2.1, hf.2.2.2.2.2.2.2.1, digitVal_digitChar10 d hd10,
            htd, hval, show (((m.toNat : Nat) : Int)) = m from by omega]
      | arr es =>
        cases es with
        | nil =>
          rw [parseVal.eq_def]
          simp [Json.toChars, arrChars, skipWs, isJsonWs]
        | cons e t =>
          have hQ := ihQ (e :: t) rest (by simp) (by
            rw [sizeJ_arr] at hs; omega)
          obtain ⟨c0, cs0, he, hnws, hne1, _⟩ := toChars_head e
          obtain ⟨tail, htail⟩ : ∃ tail, arrChars (e :: t) = Json.toChars e ++ tail := by
            cases t with
            | nil => exact ⟨[], by simp [arrChars]⟩
            | cons e2 t2 => exact ⟨',' :: arrChars (e2 :: t2), by simp [arrChars]⟩
          have hX : arrChars (e :: t) ++ ']' :: rest
              = c0 :: (cs0 ++ (tail ++ ']' :: rest)) := by
            rw [htail, he]; simp
          rw [hX] at hQ
          rw [parseVal.eq_def]
          simp only [Json.toChars, List.cons_append, List.append_assoc,
            List.singleton_append, List.nil_append]
          rw [skipWs_cons _ _ (by decide), hX]
          have hsw : skipWs (c0 :: (cs0 ++ (tail ++ ']' :: rest)))
              = c0 :: (cs0 ++ (tail ++ ']' :: rest)) := skipWs_cons _ _ hnws
          simp [hsw, hne1, hQ]
      | obj fs =>
        cases fs with
        | nil =>
          rw [parseVal.eq_def]
          simp [Json.toChars, objChars, skipWs, isJsonWs]
        | cons f t =>
          obtain ⟨k, v0⟩ := f
          have hR := ihR ((k, v0) :: t) rest (by simp) (by
            rw [sizeJ_obj] at hs; omega)
          obtain ⟨tail, htail⟩ : ∃ tail, objChars ((k, v0) :: t)
              = quoteChars k ++ (':' :: Json.toChars v0 ++ tail) := by
            cases t with
            | nil => exact ⟨[], by simp [objChars]⟩
            | cons f2 t2 => exact ⟨',' :: objChars (f2 :: t2), by simp [objChars]⟩
          have hX : objChars ((k, v0) :: t) ++ '}' :: rest
              = '"' :: (k.toList.flatMap escapeChar
                  ++ ('"' :: ((':' :: Json.toChars v0 ++ tail) ++ '}' :: rest))) := by
            rw [htail]; simp [quoteChars]
          rw [hX] at hR
          rw [parseVal.eq_def]
          simp only [Json.toChars, List.cons_append, List.append_assoc,
            List.singleton_append, List.nil_append]
          rw [skipWs_cons _ _ (by decide), hX]
          have hsw : skipWs ('"' :: (k.toList.flatMap escapeChar
                ++ ('"' :: ((':' :: Json.toChars v0 ++ tail) ++ '}' :: rest))))
              = '"' :: (k.toList.flatMap escapeChar
                ++ ('"' :: ((':' :: Json.toChars v0 ++ tail) ++ '}' :: rest))) :=
            skipWs_cons _ _ (by decide)
          simp only [String.toList, List.append_assoc, List.cons_append] at hR hsw
          simp [hsw, hR]
    · intro es rest hne hs
      cases es with
      | nil => exact absurd rfl hne
      | cons e t =>
        rw [parseElems.eq_def]
        cases t with
        | nil =>
          have hP := ihP e (']' :: rest) (by rw [sizeL_cons] at hs; simp [sizeL] at hs; omega)
            (noDigitHead_cons _ _ (by decide))
          simp only [arrChars]
          rw [hP]
          simp [skipWs, isJsonWs]
        | cons e2 t2 =>
          have hsz : sizeJ e ≤ n ∧ sizeL (e2 :: t2) ≤ n := by
            rw [sizeL_cons] at hs
            have h1 := sizeL_pos e2 t2
            have h2 := sizeJ_pos e
            omega
          have hP := ihP e (',' :: (arrChars (e2 :: t2) ++ ']' :: rest)) hsz.1
            (noDigitHead_cons _ _ (by decide))
          have hQ := ihQ (e2 :: t2) rest (by simp) hsz.2
          simp only [arrChars, List.append_assoc, List.cons_append]
          rw [hP]
          simp [skipWs, isJsonWs, hQ]
    · intro fs rest hne hs
      cases fs with
      | nil => exact absurd rfl hne
      | cons f t =>
        obtain ⟨k, v0⟩ := f
        rw [parseFields.eq_def]
        cases t with
        | nil =>
          have hP := ihP v0 ('}' :: rest) (by rw [sizeF_cons] at hs; omega)
            (noDigitHead_cons _ _ (by decide))
          simp only [objChars, quoteChars, List.cons_append, List.append_assoc,
            List.singleton_append]
          rw [skipWs_cons _ _ (by decide)]
          simp [parseStringBody_flatMap, skipWs, isJsonWs, hP]
        | cons f2 t2 =>
          have hsz : sizeJ v0 ≤ n ∧ sizeF (f2 :: t2) ≤ n := by
            obtain ⟨k2, v2⟩ := f2
            rw [sizeF_cons] at hs
            have h1 := sizeF_pos (k2, v2) t2
            have h2 := sizeJ_pos v0
            omega
          have hP := ihP v0 (',' :: (objChars (f2 :: t2) ++ '}' :: rest)) hsz.1
            (noDigitHead_cons _ _ (by decide))
          have hR := ihR (f2 :: t2) rest (by simp) hsz.2
          simp only [objChars, quoteChars, List.cons_append, List.append_assoc,
            List.singleton_append]
          rw [skipWs_cons _ _ (by decide)]
          simp [parseStringBody_flatMap, skipWs, isJsonWs, hP, hR]

/-- The node-count size of a value is bounded by the length of its printed text
    (and of printed lists by their printed length plus one), so the
    length-derived fuel of `jsonParse` always suffices. -/
theorem size_le_length : ∀ n : Nat,
    (∀ v, sizeJ v ≤ n → sizeJ v ≤ (Json.toChars v).length)
    ∧ (∀ es, sizeL es ≤ n → sizeL es ≤ (arrChars es).length + 1)
    ∧ (∀ fs, sizeF fs ≤ n → sizeF fs ≤ (objChars fs).length + 1) := by
  intro n
  induction n with
  | zero =>
    refine ⟨?_, ?_, ?_⟩
    · intro v hv; exact absurd (Nat.le_trans (sizeJ_pos v) hv) (by omega)
    · intro es hes
      cases es with
      | nil => simp [sizeL]
      | cons e t => exact absurd (Nat.le_trans (sizeL_pos e t) hes) (by omega)
    · intro fs hfs
      cases fs with
      | nil => simp [sizeF]
      | cons f t => exact absurd (Nat.le_trans (sizeF_pos f t) hfs) (by omega)
  | succ n ih =>
    obtain ⟨ihP, ihQ, ihR⟩ := ih
    refine ⟨?_, ?_, ?_⟩
    · intro v hv
      cases v with
      | null => simp [sizeJ, Json.toChars]
      | bool b => cases b <;> simp [sizeJ, Json.toChars]
      | num m =>
        have : (intChars m).length ≥ 1 := by
          unfold intChars
          by_cases h : m < 0
          · simp [h]
          · simp only [if_neg h]
            obtain ⟨ds, hmap, _, _, hne⟩ := natChars_spec m.toNat
            rw [hmap]
            cases ds with
            | nil => exact absurd rfl hne
            | cons d t => simp
        simp only [sizeJ, Json.toChars]
        omega
      | str s => simp [sizeJ, Json.toChars, quoteChars]
      | arr es =>
        have hb := ihQ es (by rw [sizeJ_arr] at hv; omega)
        rw [sizeJ_arr]
        simp only [Json.toChars, List.length_cons, List.length_append, List.length_nil]
        omega
      | obj fs =>
        have hb := ihR fs (by rw [sizeJ_obj] at hv; omega)
        rw [sizeJ_obj]
        simp only [Json.toChars, List.length_cons, List.length_append, List.length_nil]
        omega
    · intro es hes
      cases es with
      | nil => simp [sizeL]
      | cons e t =>
        rw [sizeL_cons] at hes ⊢
        have h2 := sizeJ_pos e
        cases t with
        | nil =>
          have hv := ihP e (by omega)
          simp only [arrChars, sizeL_nil]
          omega
        | cons e2 t2 =>
          have h3 := sizeL_pos e2 t2
          have hv := ihP e (by omega)
          have hl := ihQ (e2 :: t2) (by omega)
          simp only [arrChars, List.length_append, List.length_cons]
          omega
    · intro fs hfs
      cases fs with
      | nil => simp [sizeF]
      | cons f t =>
        obtain ⟨k, v0⟩ := f
        rw [sizeF_cons] at hfs ⊢
        have h2 := sizeJ_pos v0
        cases t with
        | nil =>
          have hv := ihP v0 (by omega)
          simp only [objChars, List.length_append, List.length_cons, sizeF_nil]
          omega
        | cons f2 t2 =>
          obtain ⟨k2, v2⟩ := f2
          have h3 := sizeF_pos (k2, v2) t2
          have hv := ihP v0 (by omega)
          have hl := ihR ((k2, v2) :: t2) (by omega)
          simp only [objChars, List.length_append, List.length_cons]
          omega

/-- Fuel bound for the top-level parser. -/
theorem sizeJ_le_length (v : Json) : sizeJ v ≤ (Json.toChars v).length :=
  (size_le_length (sizeJ v)).1 v (Nat.le_refl _)

/-- The embedded `JSON.parse` inverts the embedded `JSON.stringify`. -/
theorem jsonParse_stringify (v : Json) : jsonParse (jsonStringify v) = some v := by
  unfold jsonParse jsonStringify
  have hP := (parse_print_all ((Json.toChars v).length + 1)).1 v []
    (Nat.le_trans (sizeJ_le_length v) (by omega)) noDigitHead_nil
  rw [show (Json.toChars v ++ []) = Json.toChars v from by simp] at hP
  rw [show (String.mk v.toChars).length = (Json.toChars v).length from rfl,
    show (String.mk v.toChars).toList = Json.toChars v from rfl, hP]
  simp [skipWs]

/-- On object-typed data (`typeof data === 'object'`), `encryptData` serializes
    with `JSON.stringify`. -/
theorem serializeData_obj (v : Json) (h : v.isObjType = true) :
    serializeData v = jsonStringify v := by
  cases v with
  | null => rfl
  | arr es => rfl
  | obj fs => rfl
  | bool b => simp [Json.isObjType] at h
  | num n => simp [Json.isObjType] at h
  | str s => simp [Json.isObjType] at h

/-- Printed JSON is never the empty string. -/
theorem jsonStringify_ne_empty (v : Json) : jsonStringify v ≠ "" := by
  obtain ⟨c, cs, he, _, _, _⟩ := toChars_head v
  unfold jsonStringify
  rw [he]
  intro hcontra
  have := congrArg String.data hcontra
  simp at this

/-- Full codec round-trip on object-typed records: decrypting an encryption of
    `R` under the same password returns `R` itself. -/
theorem decryptData_encryptData_obj (R : Json) (K : String) (iv : List Nat)
    (h : R.isObjType = true) :
    decryptData (encryptData R K iv) K = .ok R := by
  unfold decryptData
  rw [decryptRaw_encrypt_same, serializeData_obj R h,
    if_neg (jsonStringify_ne_empty R)]
  simp [jsonParse_stringify]

/-- Decrypting under any password other than the one encrypted with fails with
    the empty-result decryption error. -/
theorem decryptData_encryptData_wrongKey (data : Json) (K1 K2 : String)
    (iv : List Nat) (h : K1 ≠ K2) :
    decryptData (encryptData data K1 iv) K2 = .error .decryptionError := by
  unfold decryptData
  simp [decryptRaw_encrypt_other data K1 K2 iv h]

/-! ## Blob shape facts -/

/-- The hex rendering has two characters per byte. -/
theorem toHexChars_length (bytes : List Nat) :
    (toHexChars bytes).length = 2 * bytes.length := by
  induction bytes with
  | nil => rfl
  | cons b t ih =>
    simp only [toHexChars, List.flatMap_cons, List.length_append, hexPair] at ih ⊢
    simp only [List.length_cons, List.length_nil]
    omega

/-- CryptoJS hex decoding inverts the hex rendering of genuine bytes. -/
theorem hexDecodeBytes_toHexChars (bytes : List Nat) (h : ∀ b ∈ bytes, b < 256) :
    hexDecodeBytes (toHexChars bytes) = some bytes := by
  induction bytes with
  | nil => rfl
  | cons b t ih =>
    have hb : b < 256 := h b (List.mem_cons_self b t)
    have h1 : b / 16 % 16 = b / 16 := Nat.mod_eq_of_lt (by omega)
    have hv1 : hexVal (hexDigitChar (b / 16)) = some (b / 16) :=
      hexVal_hexDigitChar _ (by omega)
    have hv2 : hexVal (hexDigitChar (b % 16)) = some (b % 16) :=
      hexVal_hexDigitChar _ (by omega)
    have ht : hexDecodeBytes (t.flatMap hexPair) = some t :=
      ih (fun y hy => h y (List.mem_cons_of_mem b hy))
    simp only [toHexChars, List.flatMap_cons, hexPair, List.cons_append, List.nil_append, h1]
    rw [hexDecodeBytes.eq_def]
    simp [hv1, hv2, ht]
    omega

/-- The ciphertext segment is never empty (it always carries the separator code). -/
theorem cipherChars_ne_nil (plain key : String) : cipherChars plain key ≠ [] := by
  unfold cipherChars cipherCodes
  simp

/-- An encrypted blob is never the empty string. -/
theorem encryptData_ne_empty (data : Json) (password : String) (iv : List Nat) :
    encryptData data password iv ≠ "" := by
  unfold encryptData
  intro h
  have := congrArg String.data h
  simp at this

/-! ## Storage-key disjointness -/

/-- Two strings differing at character position six are distinct. -/
theorem ne_of_data_six (s t : String) (c d : Char)
    (hs : s.data[6]? = some c) (ht : t.data[6]? = some d) (hcd : c ≠ d) : s ≠ t := by
  intro h
  rw [h, ht] at hs
  exact hcd (Option.some.inj hs).symm

/-- A per-user storage key (`gcash_user_<email>`) is never the last-backup key. -/
theorem userKey_ne_lastBackup (email : String) :
    "gcash_user_" ++ email ≠ "gcash_last_backup" := by
  refine ne_of_data_six _ _ 'u' 'l' ?_ (by rfl) (by decide)
  rw [String.data_append, List.getElem?_append_left (by decide : 6 < "gcash_user_".data.length)]
  rfl

/-- A per-user storage key is never the backup-pointer key. -/
theorem userKey_ne_gistId (email : String) :
    "gcash_user_" ++ email ≠ "gcash_backup_gist_id" := by
  refine ne_of_data_six _ _ 'u' 'b' ?_ (by rfl) (by decide)
  rw [String.data_append, List.getElem?_append_left (by decide : 6 < "gcash_user_".data.length)]
  rfl

/-- The backup mirror writes only its own bookkeeping keys: every other
    `localStorage` entry is untouched, whatever the remote outcome. -/
theorem backupUserData_localStore (enc : String) (net : FetchOutcome) (now : String)
    (st : BrowserState) (q : String) (h1 : q ≠ "gcash_last_backup")
    (h2 : q ≠ "gcash_backup_gist_id") :
    (backupUserData enc net now st).2.localStore q = st.localStore q := by
  unfold backupUserData
  split
  · rfl
  split
  · rfl
  split
  · rfl
  · split
    · rfl
    · split
      · split
        · simp [setLocal, h1]
        · rfl
      · split
        · simp [setLocal, h1, h2]
        · rfl

/-- Shape of `loadUserData` once the current-user pointer and the stored blob
    are known: everything then hinges on the session key cache. -/
theorem loadUserData_shape (st : BrowserState) (email blob : String)
    (hcu : st.localStore "gcash_current_user" = some email) (he : email ≠ "")
    (hb : st.localStore ("gcash_user_" ++ email) = some blob) (hbne : blob ≠ "") :
    loadUserData st
      = match getSessionKey st with
        | none => none
        | some sessionKey =>
          if sessionKey = "" then none
          else
            match decryptData blob sessionKey with
            | .ok v => some v
            | .error _ => none := by
  unfold loadUserData
  rw [hcu]
  simp only [he, if_false, ite_false]
  rw [hb]
  simp [he, hbne]

/-! ## Claim theorems -/

/-- C1: for every record `R` that is a JSON-serializable object (JavaScript
    `typeof 'object'`) and every key string `K`, decrypting an encryption of `R`
    under the same `K` returns a value structurally equal to `R`, for any random
    IV the encryption drew. -/
theorem C1_encrypt_decrypt_roundtrip (R : Json) (K : String) (iv : List Nat)
    (h : R.isObjType = true) :
    decryptData (encryptData R K iv) K = .ok R :=
  decryptData_encryptData_obj R K iv h

/-- Witness for C1 at a concrete record and key. -/
theorem C1_encrypt_decrypt_roundtrip_witness :
    (Json.obj [("a", Json.num 1)]).isObjType = true
    ∧ decryptData (encryptData (Json.obj [("a", Json.num 1)]) "pw" (List.replicate 16 0)) "pw"
        = .ok (Json.obj [("a", Json.num 1)]) :=
  ⟨rfl, C1_encrypt_decrypt_roundtrip (Json.obj [("a", Json.num 1)]) "pw"
    (List.replicate 16 0) rfl⟩

/-- C2: decrypting an encryption made under `K1` with any different key `K2`
    fails with the decryption error (the empty-result check): it never returns a
    value.  (The AES-CBC/PBKDF2 primitives are modelled as an ideal cipher, under
    which a wrong key always produces the empty/garbage result the code tests
    for.) -/
theorem C2_wrong_key_rejection (R : Json) (K1 K2 : String) (iv : List Nat)
    (h : K1 ≠ K2) :
    decryptData (encryptData R K1 iv) K2 = .error .decryptionError :=
  decryptData_encryptData_wrongKey R K1 K2 iv h

/-- Witness for C2 at concrete distinct keys. -/
theorem C2_wrong_key_rejection_witness :
    ("key1" : String) ≠ "key2"
    ∧ decryptData (encryptData Json.null "key1" (List.replicate 16 0)) "key2"
        = .error .decryptionError :=
  ⟨by decide, C2_wrong_key_rejection Json.null "key1" "key2" (List.replicate 16 0)
    (by decide)⟩

/-- C3 (the code against the claimed scenario): signup with
    email `a@b.com`, password `Str0ng!Pass`, full name `A B` from an empty
    browser succeeds and stores exactly one encrypted user blob at
    `gcash_user_a@b.com` — but the immediately following `loadUserData()`
    returns `none`, because no signup code path ever populates the session key
    cache; only after the cache is separately populated with the same password
    does `loadUserData()` return the record with fullname `A B` and empty
    accounts/transactions/budgets lists. -/
theorem C3_signup_then_load (now : String) (iv : List Nat) :
    (handleSignup "A B" "a@b.com" "Str0ng!Pass" "Str0ng!Pass" true now iv
        emptyBrowserState).kind = "success"
    ∧ (handleSignup "A B" "a@b.com" "Str0ng!Pass" "Str0ng!Pass" true now iv
        emptyBrowserState).state.localStore "gcash_user_a@b.com"
      = some (encryptData (signupRecord "A B" "a@b.com" now) "Str0ng!Pass" iv)
    ∧ (∀ k, k ≠ "gcash_user_a@b.com" → k ≠ "gcash_logged_in" →
        k ≠ "gcash_current_user" →
        (handleSignup "A B" "a@b.com" "Str0ng!Pass" "Str0ng!Pass" true now iv
          emptyBrowserState).state.localStore k = none)
    ∧ loadUserData (handleSignup "A B" "a@b.com" "Str0ng!Pass" "Str0ng!Pass" true now iv
        emptyBrowserState).state = none
    ∧ loadUserData (storeSessionKey "Str0ng!Pass"
        (handleSignup "A B" "a@b.com" "Str0ng!Pass" "Str0ng!Pass" true now iv
          emptyBrowserState).state)
      = some (signupRecord "A B" "a@b.com" now) := by
  have hr : handleSignup "A B" "a@b.com" "Str0ng!Pass" "Str0ng!Pass" true now iv
      emptyBrowserState
      = ⟨"Account created successfully! Redirecting...", "success",
         setLocal "gcash_current_user" "a@b.com"
           (setLocal "gcash_logged_in" "true"
             (setLocal "gcash_user_a@b.com"
               (encryptData (signupRecord "A B" "a@b.com" now) "Str0ng!Pass" iv)
               emptyBrowserState))⟩ := rfl
  rw [hr]
  have hbne := encryptData_ne_empty (signupRecord "A B" "a@b.com" now) "Str0ng!Pass" iv
  refine ⟨rfl, rfl, ?_, ?_, ?_⟩
  · intro k h1 h2 h3
    simp [setLocal, emptyBrowserState, h1, h2, h3]
  · rw [loadUserData_shape _ "a@b.com"
      (encryptData (signupRecord "A B" "a@b.com" now) "Str0ng!Pass" iv)
      rfl (by decide) rfl hbne]
    rfl
  · rw [loadUserData_shape _ "a@b.com"
      (encryptData (signupRecord "A B" "a@b.com" now) "Str0ng!Pass" iv)
      rfl (by decide) rfl hbne]
    rw [show getSessionKey (storeSessionKey "Str0ng!Pass"
        (setLocal "gcash_current_user" "a@b.com"
          (setLocal "gcash_logged_in" "true"
            (setLocal "gcash_user_a@b.com"
              (encryptData (signupRecord "A B" "a@b.com" now) "Str0ng!Pass" iv)
              emptyBrowserState)))) = some "Str0ng!Pass" from rfl]
    have hdec := decryptData_encryptData_obj (signupRecord "A B" "a@b.com" now)
      "Str0ng!Pass" iv rfl
    simp [hdec]

/-- C4 counterexample: in a state whose session cache holds a key, logout leaves
    that key in place — the claim that logout clears all four pieces of session
    state is false on the code (`clearSessionKey` has no caller). -/
theorem C4_logout_counterexample :
    (handleLogout
        ⟨fun _ => none,
         fun q => if q = "gcash_session_key" then some "cachedkey" else none,
         fun _ => none⟩).sessionStore "gcash_session_key" = some "cachedkey" := rfl

/-- C4 as amended: in every state, logout clears the logged-in flag, the
    current-user pointer and the remember-me cookie, but leaves the session key
    cache (all of session storage) untouched. -/
theorem C4_logout_amended (st : BrowserState) :
    (handleLogout st).localStore "gcash_logged_in" = none
    ∧ (handleLogout st).localStore "gcash_current_user" = none
    ∧ (handleLogout st).cookies "gcash_remember" = none
    ∧ (handleLogout st).sessionStore = st.sessionStore := by
  refine ⟨?_, ?_, ?_, ?_⟩ <;> rfl

/-- C5: whenever the save preconditions hold (truthy current-user pointer and
    truthy cached session key), `saveUserData` writes the encrypted blob under
    the user's key and returns `true` — for every possible remote outcome of the
    backup mirror, including network failure and non-2xx responses. -/
theorem C5_save_survives_mirror_failure (userData : Json) (iv : List Nat)
    (net : FetchOutcome) (now : String) (st : BrowserState) (email skey : String)
    (h1 : st.localStore "gcash_current_user" = some email) (h2 : email ≠ "")
    (h3 : getSessionKey st = some skey) (h4 : skey ≠ "") :
    (saveUserData userData iv net now st).1 = true
    ∧ (saveUserData userData iv net now st).2.localStore ("gcash_user_" ++ email)
      = some (encryptData userData skey iv) := by
  unfold saveUserData
  rw [h1, h3]
  simp only [h2, h4, if_false, ite_false]
  refine ⟨?_, ?_⟩
  · first | rfl | trivial
  · rw [backupUserData_localStore _ _ _ _ _ (userKey_ne_lastBackup email)
      (userKey_ne_gistId email)]
    simp [setLocal]

/-- Witness for C5 at a concrete state with a failing mirror. -/
theorem C5_save_survives_mirror_failure_witness :
    (saveUserData Json.null [] FetchOutcome.netError "2024-01-01T00:00:00Z"
        ⟨fun q => if q = "gcash_current_user" then some "u@x.io" else none,
         fun q => if q = "gcash_session_key" then some "pw" else none,
         fun _ => none⟩).1 = true
    ∧ (saveUserData Json.null [] FetchOutcome.netError "2024-01-01T00:00:00Z"
        ⟨fun q => if q = "gcash_current_user" then some "u@x.io" else none,
         fun q => if q = "gcash_session_key" then some "pw" else none,
         fun _ => none⟩).2.localStore ("gcash_user_" ++ "u@x.io")
      = some (encryptData Json.null "pw" []) :=
  C5_save_survives_mirror_failure Json.null [] FetchOutcome.netError
    "2024-01-01T00:00:00Z" _ "u@x.io" "pw" rfl (by decide) rfl (by decide)

/-- C6: whenever the decryption pipeline of a blob succeeds with a text that is
    not parseable as JSON, `decryptData` returns the raw decrypted text
    unchanged as a string (never an error from the parse step). -/
theorem C6_raw_text_fallback (blob password s : String)
    (hdec : decryptRaw blob password = .ok s) (hparse : jsonParse s = none) :
    decryptData blob password = .ok (.str s) := by
  unfold decryptData
  rw [hdec]
  simp [hparse]

/-- Witness for C6 at a concrete non-JSON payload. -/
theorem C6_raw_text_fallback_witness :
    decryptRaw (encryptData (.str "hello world") "pw" (List.replicate 16 0)) "pw"
        = .ok "hello world"
    ∧ jsonParse "hello world" = none
    ∧ decryptData (encryptData (.str "hello world") "pw" (List.replicate 16 0)) "pw"
        = .ok (.str "hello world") :=
  ⟨rfl, rfl, C6_raw_text_fallback _ "pw" "hello world" rfl rfl⟩

/-- C7: when the signup form is otherwise valid but a record already exists for
    the (lower-cased) email, the attempt fails with the already-registered
    message and returns the state completely unchanged. -/
theorem C7_duplicate_signup_rejected (st : BrowserState)
    (fullname email password confirmPassword now : String) (iv : List Nat)
    (hname : ¬(fullname = "" ∨ (jsTrim fullname).length < 2))
    (hemail : isValidEmail email = true)
    (hpw : (validatePasswordStrength password).isValid = true)
    (hconfirm : password = confirmPassword)
    (hdup : truthyOpt (st.localStore ("gcash_user_" ++ jsToLower email)) = true) :
    handleSignup fullname email password confirmPassword true now iv st
      = ⟨"This email is already registered", "error", st⟩ := by
  subst hconfirm
  unfold handleSignup
  rw [if_neg hname]
  simp [hemail, hpw, hdup]

/-- Witness for C7 at a concrete state holding an existing record. -/
theorem C7_duplicate_signup_rejected_witness :
    handleSignup "A B" "a@b.com" "Str0ng!Pass" "Str0ng!Pass" true "t0" []
        ⟨fun q => if q = "gcash_user_a@b.com" then some "existingblob" else none,
         fun _ => none, fun _ => none⟩
      = ⟨"This email is already registered", "error",
         ⟨fun q => if q = "gcash_user_a@b.com" then some "existingblob" else none,
          fun _ => none, fun _ => none⟩⟩ :=
  C7_duplicate_signup_rejected _ "A B" "a@b.com" "Str0ng!Pass" "Str0ng!Pass" "t0" []
    (by decide) rfl rfl rfl rfl

/-- C8: every output of `encryptData` splits on `:` into exactly two nonempty
    segments — counting exactly one `:` — and the first segment is the
    32-hex-character IV, decoding back to the 16 IV bytes. -/
theorem C8_blob_format (data : Json) (password : String) (iv : List Nat)
    (hlen : iv.length = 16) (hbytes : ∀ b ∈ iv, b < 256) :
    ∃ ivSeg ctSeg,
      splitOnChar ':' (encryptData data password iv).toList = [ivSeg, ctSeg]
      ∧ (encryptData data password iv).toList.count ':' = 1
      ∧ ivSeg.length = 32
      ∧ hexDecodeBytes ivSeg = some iv
      ∧ ivSeg ≠ [] ∧ ctSeg ≠ [] := by
  refine ⟨toHexChars iv,
    cipherChars (serializeData data) (deriveKeyFromPassword password),
    splitOnChar_encryptData data password iv, ?_, ?_, ?_, ?_, ?_⟩
  · rw [show (encryptData data password iv).toList
        = toHexChars iv ++ ':' ::
            cipherChars (serializeData data) (deriveKeyFromPassword password) from rfl]
    rw [List.count_append, List.count_cons]
    rw [List.count_eq_zero.mpr (colon_not_mem_toHexChars iv),
      List.count_eq_zero.mpr (colon_not_mem_cipherChars _ _)]
    simp
  · rw [toHexChars_length, hlen]
  · exact hexDecodeBytes_toHexChars iv hbytes
  · intro h
    have := congrArg List.length h
    rw [toHexChars_length, hlen] at this
    simp at this
  · exact cipherChars_ne_nil _ _

/-- Witness for C8 at a concrete 16-byte IV. -/
theorem C8_blob_format_witness :
    (List.replicate 16 171).length = 16
    ∧ (∀ b ∈ List.replicate 16 171, b < 256)
    ∧ ∃ ivSeg ctSeg,
        splitOnChar ':' (encryptData Json.null "p" (List.replicate 16 171)).toList
          = [ivSeg, ctSeg]
        ∧ (encryptData Json.null "p" (List.replicate 16 171)).toList.count ':' = 1
        ∧ ivSeg.length = 32
        ∧ hexDecodeBytes ivSeg = some (List.replicate 16 171)
        ∧ ivSeg ≠ [] ∧ ctSeg ≠ [] :=
  ⟨by decide, by decide,
    C8_blob_format Json.null "p" (List.replicate 16 171) (by decide) (by decide)⟩

/-- C9: there is a plain-string payload that is itself valid JSON text — here
    `"123"` — for which decrypt-of-encrypt returns the JSON-parsed number
    rather than the original string, so the round-trip law fails for such
    string payloads (the raw-text fallback only preserves strings that are not
    valid JSON). -/
theorem C9_json_string_payload_reparsed :
    decryptData (encryptData (.str "123") "key1" (List.replicate 16 0)) "key1"
        = .ok (.num 123)
    ∧ Json.num 123 ≠ Json.str "123" :=
  ⟨rfl, fun h => Json.noConfusion h⟩

/-- C10: whenever the remember-me cookie names a (truthy) email whose user blob
    exists, `checkRememberMeCookie` flips the store to logged-in state — current
    user set to that email — with no password check and no decryption: session
    storage, cookies, and every other `localStorage` key are untouched, whatever
    the blob contains. -/
theorem C10_remember_cookie_autologin (st : BrowserState) (email : String)
    (hc : st.cookies "gcash_remember" = some email) (hne : email ≠ "")
    (hblob : truthyOpt (st.localStore ("gcash_user_" ++ email)) = true) :
    (checkRememberMeCookie st).1 = true
    ∧ (checkRememberMeCookie st).2.localStore "gcash_logged_in" = some "true"
    ∧ (checkRememberMeCookie st).2.localStore "gcash_current_user" = some email
    ∧ (checkRememberMeCookie st).2.sessionStore = st.sessionStore
    ∧ (checkRememberMeCookie st).2.cookies = st.cookies
    ∧ ∀ k, k ≠ "gcash_logged_in" → k ≠ "gcash_current_user" →
        (checkRememberMeCookie st).2.localStore k = st.localStore k := by
  unfold checkRememberMeCookie
  rw [hc]
  simp only [if_pos (show email ≠ "" ∧
    truthyOpt (st.localStore ("gcash_user_" ++ email)) = true from ⟨hne, hblob⟩)]
  refine ⟨?_, ?_, ?_, ?_, ?_, ?_⟩
  · first | rfl | trivial
  · first | rfl | trivial
  · first | rfl | trivial
  · first | rfl | trivial
  · first | rfl | trivial
  · intro k h1 h2
    simp [setLocal, h1, h2]

/-- Witness for C10 at a concrete state with a remember-me cookie. -/
theorem C10_remember_cookie_autologin_witness :
    (checkRememberMeCookie
        ⟨fun q => if q = "gcash_user_a@b.com" then some "blob" else none,
         fun _ => none,
         fun q => if q = "gcash_remember" then some "a@b.com" else none⟩).1 = true
    ∧ (checkRememberMeCookie
        ⟨fun q => if q = "gcash_user_a@b.com" then some "blob" else none,
         fun _ => none,
         fun q => if q = "gcash_remember" then some "a@b.com" else none⟩).2.localStore
        "gcash_logged_in" = some "true" := by
  have h := C10_remember_cookie_autologin
    ⟨fun q => if q = "gcash_user_a@b.com" then some "blob" else none,
     fun _ => none,
     fun q => if q = "gcash_remember" then some "a@b.com" else none⟩
    "a@b.com" rfl (by decide) rfl
  exact ⟨h.1, h.2.1⟩

end Greenville
